import Mathlib

/-!
# Verification of the OptimalBESS forecast/actuals merge pipeline

A shallow embedding of `merge_forecast_and_actuals_csv` from
`src/dataset/readdata.py`. Timestamps are modelled as integer minutes
(`pd.Timedelta(hours=1)` is the constant 60), values as rationals, and the
pandas `NaN` missing marker as `Option.none`. Each pandas operation used by
the pipeline (zero-masking via `replace(0, nan)`, `sort_index`, `date_range`,
`reindex`, `interpolate(method="time")`, `ffill`, `bfill`, `resample(freq)`
with `mean`/`first`/`last`, inner `merge` on the time column, `dropna`, the
nonzero filter, and `sort_values`) is embedded as an executable function, and
the whole merge is a function returning `Except MergeError (List Row)`.
-/

namespace OptimalBESS

/-- A raw time series as loaded from CSV: (timestamp in minutes, value). -/
abbrev RawSeries := List (Int × ℚ)

/-- A series with explicit missing values: pandas `NaN` is `none`. -/
abbrev MSeries := List (Int × Option ℚ)

/-- The zero-as-missing sentinel masking, `Series.replace(0, np.nan)` applied
element-wise: a value exactly equal to zero becomes missing. -/
def toMissing (v : ℚ) : Option ℚ := if v = 0 then none else some v

/-- `set_index(...).sort_index()`: sort by timestamp ascending (stable). -/
def sortByTime (s : RawSeries) : RawSeries :=
  List.insertionSort (fun a b => a.1 ≤ b.1) s

/-- `set_index(..)[col].sort_index().astype(float).replace(0, np.nan)`:
sort by time, then mask zeros to missing. -/
def maskSeries (s : RawSeries) : MSeries :=
  (sortByTime s).map (fun p => (p.1, toMissing p.2))

/-- `pd.date_range(start, stop, freq=step)`: the points
`start, start+step, …` up to the largest one `≤ stop`; empty when
`stop < start`. (pandas rejects a nonpositive frequency at parse time;
we return the empty range in that degenerate case.) -/
def dateRange (start stop step : Int) : List Int :=
  if step ≤ 0 ∨ stop < start then []
  else (List.range (((stop - start) / step).toNat + 1)).map
    (fun k : ℕ => start + step * (k : Int))

/-- Minimum timestamp of a raw series (`series.index.min()`). -/
def seriesMin (s : RawSeries) : Option Int := (s.map Prod.fst).min?

/-- Maximum timestamp of a raw series (`series.index.max()`). -/
def seriesMax (s : RawSeries) : Option Int := (s.map Prod.fst).max?

/-- The target grid `full_index`:
`date_range(min, max + Timedelta(hours=1) - offset, freq)`
with the hour extension hardcoded as 60 minutes. -/
def fullIndex (s : RawSeries) (freq : Int) : List Int :=
  match seriesMin s, seriesMax s with
  | some mn, some mx => dateRange mn (mx + 60 - freq) freq
  | _, _ => []

/-- `reindex`: the value found at a given label, `none` when absent. -/
def lookupVal (s : MSeries) (t : Int) : Option ℚ :=
  match s.find? (fun p => p.1 = t) with
  | some p => p.2
  | none => none

/-- `series.reindex(grid)`: one entry per grid label, missing when the label
is not present in the series. -/
def reindexOn (grid : List Int) (s : MSeries) : MSeries :=
  grid.map (fun t => (t, lookupVal s t))

/-- The first known (non-missing) point of a series. -/
def firstKnown : MSeries → Option (Int × ℚ)
  | [] => none
  | (t, some v) :: _ => some (t, v)
  | (_, none) :: rest => firstKnown rest

/-- The last known (non-missing) point of a series. -/
def lastKnown (l : MSeries) : Option (Int × ℚ) :=
  firstKnown l.reverse

/-- Fill rule of `interpolate(method="time")` at a missing point `t`:
time-weighted linear blend between the nearest earlier and later known
points; with no later known point the last known value is carried forward
(pandas' default forward limit direction); with no earlier known point the
entry stays missing. -/
def interpMissing (before after : Option (Int × ℚ)) (t : Int) : Option ℚ :=
  match before, after with
  | some (t0, v0), some (t1, v1) =>
      some (v0 + (v1 - v0) * (((t - t0 : Int) : ℚ) / ((t1 - t0 : Int) : ℚ)))
  | some (_, v0), none => some v0
  | none, _ => none

/-- `series.interpolate(method="time")`. -/
def interpolateTime (s : MSeries) : MSeries :=
  s.enum.map (fun ip =>
    match ip.2.2 with
    | some v => (ip.2.1, some v)
    | none =>
        (ip.2.1,
         interpMissing (lastKnown (s.take ip.1)) (firstKnown (s.drop (ip.1 + 1)))
           ip.2.1))

/-- `series.ffill()`: a missing entry takes the nearest earlier known value. -/
def ffill (s : MSeries) : MSeries :=
  s.enum.map (fun ip =>
    match ip.2.2 with
    | some v => (ip.2.1, some v)
    | none => (ip.2.1, (lastKnown (s.take ip.1)).map Prod.snd))

/-- `series.bfill()`: a missing entry takes the nearest later known value. -/
def bfill (s : MSeries) : MSeries :=
  s.enum.map (fun ip =>
    match ip.2.2 with
    | some v => (ip.2.1, some v)
    | none => (ip.2.1, (firstKnown (s.drop (ip.1 + 1))).map Prod.snd))

/-- The forecast series reindexed onto the grid (line
`forecast_series.reindex(full_index)`). -/
def forecastReindexed (fraw : RawSeries) (freq : Int) : MSeries :=
  reindexOn (fullIndex fraw freq) (maskSeries fraw)

/-- The complete forecast upsampling stage:
`forecast_series.reindex(full_index).interpolate(method="time").ffill().bfill()`. -/
def forecastResampled (fraw : RawSeries) (freq : Int) : MSeries :=
  bfill (ffill (interpolateTime (forecastReindexed fraw freq)))

/-- Epoch-aligned bucket start used by `resample(freq)`: the largest multiple
of `freq` not exceeding `t`. -/
def bucketOf (freq t : Int) : Int := freq * (t / freq)

/-- The bucket labels produced by `resample(freq)`: every bucket start from
the first point's bucket to the last point's bucket, empty buckets included. -/
def bucketIndex (araw : RawSeries) (freq : Int) : List Int :=
  match seriesMin araw, seriesMax araw with
  | some mn, some mx => dateRange (bucketOf freq mn) (bucketOf freq mx) freq
  | _, _ => []

/-- The non-missing values of a masked series falling in bucket `b`. -/
def valsInBucket (s : MSeries) (freq b : Int) : List ℚ :=
  (s.filter (fun p => bucketOf freq p.1 = b)).filterMap Prod.snd

/-- Statement-side view of a bucket's valid data: the values of the raw
actuals series whose timestamp falls in bucket `b` and which survive the
zero-sentinel masking. -/
def validRawInBucket (araw : RawSeries) (freq b : Int) : List ℚ :=
  (araw.filter (fun q => decide (bucketOf freq q.1 = b) && decide (q.2 ≠ 0))).map
    Prod.snd

/-- One bucket's aggregation: `mean` / `first` / `last`, skipping missing
values; a bucket with no valid value yields missing. -/
def aggBucket (agg : String) (vals : List ℚ) : Option ℚ :=
  if vals = [] then none
  else if agg = "mean" then some (vals.sum / (vals.length : ℚ))
  else if agg = "first" then vals.head?
  else vals.getLast?

/-- `actuals_series.resample(freq).{mean,first,last}()`. -/
def actualsResampled (araw : RawSeries) (freq : Int) (agg : String) : MSeries :=
  (bucketIndex araw freq).map
    (fun b => (b, aggBucket agg (valsInBucket (maskSeries araw) freq b)))

/-- One row of the merged output table. -/
structure Row where
  time : Int
  forecast_value : ℚ
  actual_value : ℚ
deriving DecidableEq, Repr

/-- The failure modes of the merge (each a `ValueError` in the source). -/
inductive MergeError where
  /-- `date_range` raises when the forecast index is empty (`NaT` bounds). -/
  | emptyForecastIndex
  /-- `reindex` raises on an index with duplicate labels. -/
  | duplicateForecastLabels
  /-- `actuals_agg must be one of: mean, first, last`. -/
  | invalidAggMode
  /-- `fill_actual_method must be one of: time, ffill`. -/
  | invalidFillMethod
deriving DecidableEq, Repr

instance : DecidableEq (Except MergeError (List Row)) := fun a b =>
  match a, b with
  | .error x, .error y =>
      if h : x = y then .isTrue (by rw [h])
      else .isFalse (fun hc => h (Except.error.inj hc))
  | .ok x, .ok y =>
      if h : x = y then .isTrue (by rw [h])
      else .isFalse (fun hc => h (Except.ok.inj hc))
  | .error _, .ok _ => .isFalse (fun hc => Except.noConfusion hc)
  | .ok _, .error _ => .isFalse (fun hc => Except.noConfusion hc)

/-- `merged.dropna(subset=[...])`: keep only rows where both values are
present. -/
def dropnaRows (l : List (Int × Option ℚ × Option ℚ)) : List Row :=
  l.filterMap (fun p =>
    match p.2.1, p.2.2 with
    | some f, some a => some ⟨p.1, f, a⟩
    | _, _ => none)

/-- `merged[(merged["forecast_value"] != 0) & (merged["actual_value"] != 0)]`. -/
def filterNonzero (l : List Row) : List Row :=
  l.filter (fun r => decide (r.forecast_value ≠ 0) && decide (r.actual_value ≠ 0))

/-- `merged.sort_values("forecast_time")`. -/
def sortRows (l : List Row) : List Row :=
  List.insertionSort (fun a b : Row => a.time ≤ b.time) l

/-- pandas inner `merge` on the time column: one row per left (forecast) key
also present on the right, left key order preserved. -/
def innerJoin (f a : MSeries) : List (Int × Option ℚ × Option ℚ) :=
  f.filterMap (fun fp =>
    (a.find? (fun ap => ap.1 = fp.1)).map (fun ap => (fp.1, fp.2, ap.2)))

/-- The fill-mode `DataFrame` built from `full_index` and the two `.values`
arrays, paired positionally. -/
def fillMerged (grid : List Int) (fres ares : MSeries) :
    List (Int × Option ℚ × Option ℚ) :=
  (grid.zip (fres.zip ares)).map (fun p => (p.1, p.2.1.2, p.2.2.2))

/-- The actuals series used in fill mode, after reindexing onto the grid and
filling with the chosen method (`interpolate(method="time")` for `time`,
nothing extra for `ffill`, then `ffill().bfill()` in both cases). -/
def actualsFilled (araw fraw : RawSeries) (freq : Int) (agg meth : String) :
    MSeries :=
  bfill (ffill (if meth = "time"
    then interpolateTime
      (reindexOn (fullIndex fraw freq) (actualsResampled araw freq agg))
    else reindexOn (fullIndex fraw freq) (actualsResampled araw freq agg)))

/-- The whole of `merge_forecast_and_actuals_csv` after CSV loading: both
series are sorted and zero-masked, the forecast is upsampled onto the grid,
the actuals are bucket-aggregated, the two are aligned (intersection join or
full-grid fill), and rows with missing or zero values are dropped before the
final sort. Failures mirror the `ValueError`s of the source, in source
order. -/
def mergeForecastAndActuals (fraw araw : RawSeries) (freq : Int)
    (actuals_agg : String) (fill_missing : Bool) (fill_actual_method : String) :
    Except MergeError (List Row) :=
  if fraw = [] then .error .emptyForecastIndex
  else if ¬ (fraw.map Prod.fst).Nodup then .error .duplicateForecastLabels
  else
    let grid := fullIndex fraw freq
    let fres := forecastResampled fraw freq
    if actuals_agg = "mean" ∨ actuals_agg = "first" ∨ actuals_agg = "last" then
      let ares := actualsResampled araw freq actuals_agg
      if fill_missing then
        if fill_actual_method = "time" ∨ fill_actual_method = "ffill" then
          let ares2 := reindexOn grid ares
          let ares3 :=
            if fill_actual_method = "time" then interpolateTime ares2 else ares2
          let ares4 := bfill (ffill ares3)
          .ok (sortRows (filterNonzero (dropnaRows (fillMerged grid fres ares4))))
        else .error .invalidFillMethod
      else
        .ok (sortRows (filterNonzero (dropnaRows (innerJoin fres ares))))
    else .error .invalidAggMode

/-! ## Structural lemmas about the embedded pandas operations -/

theorem snd_mem_of_mem_enum {α : Type} {l : List α} {i : ℕ} {a : α}
    (h : (i, a) ∈ l.enum) : a ∈ l := by
  rw [List.mem_iff_getElem?] at h ⊢
  obtain ⟨j, hj⟩ := h
  rw [List.getElem?_enum] at hj
  cases hl : l[j]? with
  | none => rw [hl] at hj; simp at hj
  | some b =>
      rw [hl] at hj
      simp only [Option.map_some', Option.some.injEq, Prod.mk.injEq] at hj
      exact ⟨j, by rw [hl, hj.2]⟩

theorem map_fst_enum_map {f : ℕ × (Int × Option ℚ) → Int × Option ℚ}
    (hf : ∀ ip, (f ip).1 = ip.2.1) (s : MSeries) :
    (s.enum.map f).map Prod.fst = s.map Prod.fst := by
  rw [List.map_map]
  have h1 : (Prod.fst ∘ f) = fun ip : ℕ × (Int × Option ℚ) => ip.2.1 :=
    funext fun ip => hf ip
  have h2 : (fun ip : ℕ × (Int × Option ℚ) => ip.2.1)
      = Prod.fst ∘ Prod.snd := rfl
  rw [h1, h2, ← List.map_map, List.enum_map_snd]

theorem map_fst_interpolateTime (s : MSeries) :
    (interpolateTime s).map Prod.fst = s.map Prod.fst :=
  map_fst_enum_map (fun ip => by rcases ip with ⟨i, t, v⟩; cases v <;> rfl) s

theorem map_fst_ffill (s : MSeries) :
    (ffill s).map Prod.fst = s.map Prod.fst :=
  map_fst_enum_map (fun ip => by rcases ip with ⟨i, t, v⟩; cases v <;> rfl) s

theorem map_fst_bfill (s : MSeries) :
    (bfill s).map Prod.fst = s.map Prod.fst :=
  map_fst_enum_map (fun ip => by rcases ip with ⟨i, t, v⟩; cases v <;> rfl) s

theorem map_fst_reindexOn (grid : List Int) (s : MSeries) :
    (reindexOn grid s).map Prod.fst = grid := by
  simp [reindexOn, List.map_map, Function.comp_def]

theorem length_interpolateTime (s : MSeries) :
    (interpolateTime s).length = s.length := by
  simp [interpolateTime]

theorem length_ffill (s : MSeries) : (ffill s).length = s.length := by
  simp [ffill]

theorem length_bfill (s : MSeries) : (bfill s).length = s.length := by
  simp [bfill]

/-! Pointwise descriptions of `interpolate` / `ffill` / `bfill`. -/

theorem interpolateTime_known {s : MSeries} {i : ℕ} {t : Int} {w : ℚ}
    (h : s[i]? = some (t, some w)) :
    (interpolateTime s)[i]? = some (t, some w) := by
  unfold interpolateTime
  rw [List.getElem?_map, List.getElem?_enum, h]
  rfl

theorem interpolateTime_missing {s : MSeries} {i : ℕ} {t : Int}
    (h : s[i]? = some (t, none)) :
    (interpolateTime s)[i]? =
      some (t, interpMissing (lastKnown (s.take i))
        (firstKnown (s.drop (i + 1))) t) := by
  unfold interpolateTime
  rw [List.getElem?_map, List.getElem?_enum, h]
  rfl

theorem ffill_known {s : MSeries} {i : ℕ} {t : Int} {w : ℚ}
    (h : s[i]? = some (t, some w)) :
    (ffill s)[i]? = some (t, some w) := by
  unfold ffill
  rw [List.getElem?_map, List.getElem?_enum, h]
  rfl

theorem ffill_missing {s : MSeries} {i : ℕ} {t : Int}
    (h : s[i]? = some (t, none)) :
    (ffill s)[i]? = some (t, (lastKnown (s.take i)).map Prod.snd) := by
  unfold ffill
  rw [List.getElem?_map, List.getElem?_enum, h]
  rfl

theorem bfill_known {s : MSeries} {i : ℕ} {t : Int} {w : ℚ}
    (h : s[i]? = some (t, some w)) :
    (bfill s)[i]? = some (t, some w) := by
  unfold bfill
  rw [List.getElem?_map, List.getElem?_enum, h]
  rfl

theorem bfill_missing {s : MSeries} {i : ℕ} {t : Int}
    (h : s[i]? = some (t, none)) :
    (bfill s)[i]? = some (t, (firstKnown (s.drop (i + 1))).map Prod.snd) := by
  unfold bfill
  rw [List.getElem?_map, List.getElem?_enum, h]
  rfl

theorem bfill_getElem?_none {s : MSeries} {i : ℕ} (h : s[i]? = none) :
    (bfill s)[i]? = none := by
  unfold bfill
  rw [List.getElem?_map, List.getElem?_enum, h]
  rfl

/-! Known-value lemmas for `firstKnown` / `lastKnown`. -/

theorem firstKnown_eq_none (l : MSeries) :
    firstKnown l = none ↔ ∀ p ∈ l, p.2 = none := by
  induction l with
  | nil => simp [firstKnown]
  | cons q rest ih =>
      obtain ⟨t, v⟩ := q
      cases v with
      | none => simp [firstKnown, ih]
      | some w => simp [firstKnown]

theorem firstKnown_isSome_of_mem {l : MSeries} {p : Int × Option ℚ}
    (hp : p ∈ l) (hv : p.2 ≠ none) : (firstKnown l).isSome := by
  cases h : firstKnown l with
  | none => exact absurd ((firstKnown_eq_none l).mp h p hp) hv
  | some q => rfl

theorem lastKnown_eq_none (l : MSeries) :
    lastKnown l = none ↔ ∀ p ∈ l, p.2 = none := by
  rw [lastKnown, firstKnown_eq_none]
  constructor
  · intro h p hp; exact h p (List.mem_reverse.mpr hp)
  · intro h p hp; exact h p (List.mem_reverse.mp hp)

theorem lastKnown_isSome_of_mem {l : MSeries} {p : Int × Option ℚ}
    (hp : p ∈ l) (hv : p.2 ≠ none) : (lastKnown l).isSome :=
  firstKnown_isSome_of_mem (List.mem_reverse.mpr hp) hv

theorem lastKnown_take_isSome {s : MSeries} {j i : ℕ} {t : Int} {w : ℚ}
    (hj : s[j]? = some (t, some w)) (hji : j < i) :
    (lastKnown (s.take i)).isSome := by
  have hmem : (t, some w) ∈ s.take i := by
    rw [List.mem_iff_getElem?]
    exact ⟨j, by rw [List.getElem?_take, if_pos hji, hj]⟩
  exact lastKnown_isSome_of_mem hmem (by simp)

theorem firstKnown_drop_isSome {s : MSeries} {j n : ℕ} {t : Int} {w : ℚ}
    (hj : s[j]? = some (t, some w)) (hnj : n ≤ j) :
    (firstKnown (s.drop n)).isSome := by
  have hmem : (t, some w) ∈ s.drop n := by
    rw [List.mem_iff_getElem?]
    refine ⟨j - n, ?_⟩
    rw [List.getElem?_drop]
    rwa [Nat.add_sub_cancel' hnj]
  exact firstKnown_isSome_of_mem hmem (by simp)

/-! Propagation of an all-missing series through the fill stages. -/

theorem interpolateTime_allNone {s : MSeries} (h : ∀ p ∈ s, p.2 = none) :
    ∀ p ∈ interpolateTime s, p.2 = none := by
  intro p hp
  unfold interpolateTime at hp
  rw [List.mem_map] at hp
  obtain ⟨ip, hip, rfl⟩ := hp
  obtain ⟨i, t, v⟩ := ip
  have hq : (t, v) ∈ s := snd_mem_of_mem_enum hip
  have hv : v = none := h (t, v) hq
  subst hv
  have h1 : lastKnown (s.take i) = none :=
    (lastKnown_eq_none _).mpr fun p hp => h p (List.take_subset i s hp)
  simp only [h1]
  rfl

theorem ffill_allNone {s : MSeries} (h : ∀ p ∈ s, p.2 = none) :
    ∀ p ∈ ffill s, p.2 = none := by
  intro p hp
  unfold ffill at hp
  rw [List.mem_map] at hp
  obtain ⟨ip, hip, rfl⟩ := hp
  obtain ⟨i, t, v⟩ := ip
  have hq : (t, v) ∈ s := snd_mem_of_mem_enum hip
  have hv : v = none := h (t, v) hq
  subst hv
  have h1 : lastKnown (s.take i) = none :=
    (lastKnown_eq_none _).mpr fun p hp => h p (List.take_subset i s hp)
  simp [h1]

theorem bfill_allNone {s : MSeries} (h : ∀ p ∈ s, p.2 = none) :
    ∀ p ∈ bfill s, p.2 = none := by
  intro p hp
  unfold bfill at hp
  rw [List.mem_map] at hp
  obtain ⟨ip, hip, rfl⟩ := hp
  obtain ⟨i, t, v⟩ := ip
  have hq : (t, v) ∈ s := snd_mem_of_mem_enum hip
  have hv : v = none := h (t, v) hq
  subst hv
  have h1 : firstKnown (s.drop (i + 1)) = none :=
    (firstKnown_eq_none _).mpr fun p hp => h p (List.drop_subset (i + 1) s hp)
  simp [h1]

/-- If a missing entry survives `ffill`, the input entry was missing and there
was no known value anywhere before it. -/
theorem ffill_none_inv {s : MSeries} {i : ℕ} {t : Int}
    (h : (ffill s)[i]? = some (t, none)) :
    s[i]? = some (t, none) ∧ lastKnown (s.take i) = none := by
  cases hs : s[i]? with
  | none =>
      unfold ffill at h
      rw [List.getElem?_map, List.getElem?_enum, hs] at h
      simp at h
  | some q =>
      obtain ⟨t', v⟩ := q
      cases v with
      | some w =>
          rw [ffill_known hs] at h
          simp at h
      | none =>
          rw [ffill_missing hs] at h
          simp only [Option.some.injEq, Prod.mk.injEq] at h
          obtain ⟨h1, h2⟩ := h
          subst h1
          exact ⟨rfl, Option.map_eq_none'.mp h2⟩

/-- The engine behind the forecast-completeness guarantee: if the reindexed
series has a known value at some position, then after
`interpolate().ffill().bfill()` every entry is known. -/
theorem upsample_complete {s : MSeries} {j : ℕ} {t0 : Int} {w : ℚ}
    (hj : s[j]? = some (t0, some w)) :
    ∀ p ∈ bfill (ffill (interpolateTime s)), p.2 ≠ none := by
  have hXj : (interpolateTime s)[j]? = some (t0, some w) :=
    interpolateTime_known hj
  have hYj : (ffill (interpolateTime s))[j]? = some (t0, some w) :=
    ffill_known hXj
  intro p hp
  rw [List.mem_iff_getElem?] at hp
  obtain ⟨i, hi⟩ := hp
  cases hYi : (ffill (interpolateTime s))[i]? with
  | none => rw [bfill_getElem?_none hYi] at hi; simp at hi
  | some q =>
      obtain ⟨ti, vi⟩ := q
      cases vi with
      | some wi =>
          rw [bfill_known hYi] at hi
          rw [← Option.some_inj.mp hi]
          simp
      | none =>
          -- the entry was missing after ffill: no known value before it,
          -- hence the known value at j lies strictly after i
          obtain ⟨hXi, hnone⟩ := ffill_none_inv hYi
          have hij : i < j := by
            rcases Nat.lt_trichotomy i j with h | h | h
            · exact h
            · subst h; rw [hXi] at hXj; simp at hXj
            · have := lastKnown_take_isSome hXj h
              rw [hnone] at this; simp at this
          have hfk : (firstKnown ((ffill (interpolateTime s)).drop (i + 1))).isSome :=
            firstKnown_drop_isSome hYj hij
          rw [bfill_missing hYi] at hi
          rw [← Option.some_inj.mp hi]
          simp only [ne_eq, Option.map_eq_none']
          intro hcon
          rw [hcon] at hfk
          simp at hfk

/-! ## `date_range` lemmas -/

theorem mem_dateRange {start stop step t : Int} (hstep : 0 < step) :
    t ∈ dateRange start stop step ↔
      (∃ k : ℕ, t = start + step * k) ∧ t ≤ stop := by
  unfold dateRange
  by_cases hlt : stop < start
  · rw [if_pos (Or.inr hlt)]
    simp only [List.not_mem_nil, false_iff]
    rintro ⟨⟨k, rfl⟩, hle⟩
    have hk0 : (0 : Int) ≤ (k : Int) := Int.natCast_nonneg k
    nlinarith
  · rw [if_neg (by omega)]
    rw [List.mem_map]
    constructor
    · rintro ⟨k, hk, rfl⟩
      rw [List.mem_range] at hk
      refine ⟨⟨k, rfl⟩, ?_⟩
      have hk' : (k : Int) ≤ (stop - start) / step := by
        rw [← Int.le_toNat (Int.ediv_nonneg (by omega) (by omega))]
        omega
      have := (Int.le_ediv_iff_mul_le hstep).mp hk'
      nlinarith [this]
    · rintro ⟨⟨k, rfl⟩, hle⟩
      refine ⟨k, ?_, rfl⟩
      rw [List.mem_range]
      have h1 : (k : Int) * step ≤ stop - start := by nlinarith
      have h2 : (k : Int) ≤ (stop - start) / step :=
        (Int.le_ediv_iff_mul_le hstep).mpr h1
      rw [← Int.le_toNat (Int.ediv_nonneg (by omega) (by omega))] at h2
      omega

theorem chain'_range_map (step s : Int) (n : ℕ) :
    List.Chain' (fun a b => b = a + step)
      ((List.range n).map (fun k : ℕ => s + step * (k : Int))) := by
  induction n generalizing s with
  | zero => simp
  | succ m ih =>
      rw [List.range_succ_eq_map, List.map_cons, List.map_map]
      have hmap : ((List.range m).map
            ((fun k : ℕ => s + step * (k : Int)) ∘ Nat.succ))
          = (List.range m).map (fun k : ℕ => (s + step) + step * (k : Int)) := by
        apply List.map_congr_left
        intro k _
        simp only [Function.comp_apply, Nat.succ_eq_add_one]
        push_cast
        ring
      rw [hmap]
      rw [List.chain'_cons']
      constructor
      · intro y hy
        cases m with
        | zero => simp at hy
        | succ m' =>
            rw [List.range_succ_eq_map, List.map_cons, List.head?_cons] at hy
            simp only [Option.mem_def, Option.some.injEq] at hy
            subst hy
            simp
      · exact ih (s + step)

theorem chain'_dateRange (start stop step : Int) :
    List.Chain' (fun a b => b = a + step) (dateRange start stop step) := by
  unfold dateRange
  by_cases h : step ≤ 0 ∨ stop < start
  · rw [if_pos h]; simp
  · rw [if_neg h]; exact chain'_range_map step start _

theorem pairwise_lt_dateRange (start stop step : Int) (hstep : 0 < step) :
    List.Pairwise (· < ·) (dateRange start stop step) := by
  haveI : IsTrans Int (· < ·) := ⟨fun a b c => lt_trans⟩
  refine List.chain'_iff_pairwise.mp ?_
  exact List.Chain'.imp (fun a b hab => by omega)
    (chain'_dateRange start stop step)

theorem head?_dateRange {start stop step : Int} (hstep : 0 < step)
    (hle : start ≤ stop) : (dateRange start stop step).head? = some start := by
  unfold dateRange
  rw [if_neg (by omega)]
  rw [List.range_succ_eq_map, List.map_cons, List.head?_cons]
  simp

theorem getLast?_dateRange {start stop step : Int} (hstep : 0 < step)
    (hle : start ≤ stop) (hdvd : step ∣ stop - start) :
    (dateRange start stop step).getLast? = some stop := by
  unfold dateRange
  rw [if_neg (by omega)]
  rw [List.range_succ, List.map_append, List.map_singleton,
    List.getLast?_concat]
  congr 1
  have h0 : (0 : Int) ≤ stop - start := by omega
  have h1 : (((stop - start) / step).toNat : Int) = (stop - start) / step :=
    Int.toNat_of_nonneg (Int.ediv_nonneg h0 (by omega))
  rw [h1, Int.mul_ediv_cancel' hdvd]
  omega

theorem dateRange_nonpos {start stop step : Int} (hstep : step ≤ 0) :
    dateRange start stop step = [] := by
  unfold dateRange
  rw [if_pos (Or.inl hstep)]

/-- The grid is strictly increasing (hence has no duplicate timestamps). -/
theorem pairwise_lt_fullIndex (s : RawSeries) (freq : Int) :
    List.Pairwise (· < ·) (fullIndex s freq) := by
  unfold fullIndex
  cases hmn : seriesMin s with
  | none => simp
  | some mn =>
      cases hmx : seriesMax s with
      | none => simp
      | some mx =>
          simp only []
          by_cases hf : 0 < freq
          · exact pairwise_lt_dateRange _ _ _ hf
          · rw [dateRange_nonpos (by omega)]
            simp

/-! ## Masking, lookup and join lemmas -/

theorem toMissing_ne_some_zero (v : ℚ) : toMissing v ≠ some 0 := by
  unfold toMissing
  by_cases h : v = 0 <;> simp [h]

theorem mem_maskSeries_ne_zero {s : RawSeries} {p : Int × Option ℚ}
    (hp : p ∈ maskSeries s) : p.2 ≠ some 0 := by
  unfold maskSeries at hp
  rw [List.mem_map] at hp
  obtain ⟨q, _, rfl⟩ := hp
  exact toMissing_ne_some_zero q.2

theorem maskSeries_perm (s : RawSeries) :
    (maskSeries s).Perm (s.map (fun p => (p.1, toMissing p.2))) :=
  (List.perm_insertionSort _ s).map _

theorem maskSeries_allNone {s : RawSeries} (h : ∀ p ∈ s, p.2 = 0) :
    ∀ p ∈ maskSeries s, p.2 = none := by
  intro p hp
  unfold maskSeries sortByTime at hp
  rw [List.mem_map] at hp
  obtain ⟨q, hq, rfl⟩ := hp
  have hq' : q ∈ s := (List.perm_insertionSort _ s).mem_iff.mp hq
  simp [toMissing, h q hq']

theorem lookupVal_allNone {s : MSeries} (h : ∀ p ∈ s, p.2 = none) (t : Int) :
    lookupVal s t = none := by
  unfold lookupVal
  cases hf : s.find? (fun p => decide (p.1 = t)) with
  | none => rfl
  | some p => exact h p (List.mem_of_find?_eq_some hf)

theorem lookupVal_of_find? {s : MSeries} {t : Int} {p : Int × Option ℚ}
    (h : s.find? (fun x => decide (x.1 = t)) = some p) :
    lookupVal s t = p.2 := by
  unfold lookupVal
  rw [h]

theorem mem_dropnaRows {l : List (Int × Option ℚ × Option ℚ)} {r : Row} :
    r ∈ dropnaRows l ↔
      (r.time, some r.forecast_value, some r.actual_value) ∈ l := by
  unfold dropnaRows
  rw [List.mem_filterMap]
  constructor
  · rintro ⟨⟨t, fv, av⟩, hmem, hmatch⟩
    cases fv with
    | none => simp at hmatch
    | some f =>
        cases av with
        | none => simp at hmatch
        | some a =>
            have hr : Row.mk t f a = r := Option.some.inj hmatch
            rw [← hr]
            exact hmem
  · intro h
    exact ⟨(r.time, some r.forecast_value, some r.actual_value), h, rfl⟩

theorem mem_filterNonzero {l : List Row} {r : Row} :
    r ∈ filterNonzero l ↔
      r ∈ l ∧ r.forecast_value ≠ 0 ∧ r.actual_value ≠ 0 := by
  unfold filterNonzero
  rw [List.mem_filter]
  simp

theorem mem_sortRows {l : List Row} {r : Row} : r ∈ sortRows l ↔ r ∈ l :=
  (List.perm_insertionSort _ l).mem_iff

theorem mem_innerJoin {f a : MSeries} {p : Int × Option ℚ × Option ℚ} :
    p ∈ innerJoin f a ↔
      ∃ fp ∈ f, ∃ ap, a.find? (fun x => decide (x.1 = fp.1)) = some ap ∧
        p = (fp.1, fp.2, ap.2) := by
  unfold innerJoin
  rw [List.mem_filterMap]
  constructor
  · rintro ⟨fp, hfp, hmap⟩
    rw [Option.map_eq_some'] at hmap
    obtain ⟨ap, hfind, rfl⟩ := hmap
    exact ⟨fp, hfp, ap, hfind, rfl⟩
  · rintro ⟨fp, hfp, ap, hfind, rfl⟩
    refine ⟨fp, hfp, ?_⟩
    rw [hfind]
    rfl

/-! ## All-missing series yield no output rows -/

theorem dropnaRows_eq_nil_fst {l : List (Int × Option ℚ × Option ℚ)}
    (h : ∀ p ∈ l, p.2.1 = none) : dropnaRows l = [] := by
  unfold dropnaRows
  rw [List.filterMap_eq_nil_iff]
  intro p hp
  rcases p with ⟨t, fv, av⟩
  have hfv : fv = none := h (t, fv, av) hp
  subst hfv
  rfl

theorem dropnaRows_eq_nil_snd {l : List (Int × Option ℚ × Option ℚ)}
    (h : ∀ p ∈ l, p.2.2 = none) : dropnaRows l = [] := by
  unfold dropnaRows
  rw [List.filterMap_eq_nil_iff]
  intro p hp
  rcases p with ⟨t, fv, av⟩
  have hav : av = none := h (t, fv, av) hp
  subst hav
  cases fv <;> rfl

theorem innerJoin_fst_all {f a : MSeries} (h : ∀ fp ∈ f, fp.2 = none) :
    ∀ p ∈ innerJoin f a, p.2.1 = none := by
  intro p hp
  rw [mem_innerJoin] at hp
  obtain ⟨fp, hfp, ap, _, rfl⟩ := hp
  exact h fp hfp

theorem innerJoin_snd_all {f a : MSeries} (h : ∀ ap ∈ a, ap.2 = none) :
    ∀ p ∈ innerJoin f a, p.2.2 = none := by
  intro p hp
  rw [mem_innerJoin] at hp
  obtain ⟨fp, _, ap, hfind, rfl⟩ := hp
  exact h ap (List.mem_of_find?_eq_some hfind)

theorem fillMerged_fst_all {grid : List Int} {fres ares : MSeries}
    (h : ∀ fp ∈ fres, fp.2 = none) :
    ∀ p ∈ fillMerged grid fres ares, p.2.1 = none := by
  intro p hp
  unfold fillMerged at hp
  rw [List.mem_map] at hp
  obtain ⟨q, hq, rfl⟩ := hp
  rcases q with ⟨t, fp, ap⟩
  have h1 := (List.of_mem_zip hq).2
  exact h fp (List.of_mem_zip h1).1

theorem fillMerged_snd_all {grid : List Int} {fres ares : MSeries}
    (h : ∀ ap ∈ ares, ap.2 = none) :
    ∀ p ∈ fillMerged grid fres ares, p.2.2 = none := by
  intro p hp
  unfold fillMerged at hp
  rw [List.mem_map] at hp
  obtain ⟨q, hq, rfl⟩ := hp
  rcases q with ⟨t, fp, ap⟩
  have h1 := (List.of_mem_zip hq).2
  exact h ap (List.of_mem_zip h1).2

theorem forecastReindexed_allNone {fraw : RawSeries} {freq : Int}
    (h : ∀ p ∈ maskSeries fraw, p.2 = none) :
    ∀ p ∈ forecastReindexed fraw freq, p.2 = none := by
  intro p hp
  unfold forecastReindexed reindexOn at hp
  rw [List.mem_map] at hp
  obtain ⟨t, _, rfl⟩ := hp
  exact lookupVal_allNone h t

theorem forecastResampled_allNone {fraw : RawSeries} {freq : Int}
    (h : ∀ p ∈ maskSeries fraw, p.2 = none) :
    ∀ p ∈ forecastResampled fraw freq, p.2 = none := by
  unfold forecastResampled
  exact bfill_allNone (ffill_allNone
    (interpolateTime_allNone (forecastReindexed_allNone h)))

theorem valsInBucket_allNone {s : MSeries} (h : ∀ p ∈ s, p.2 = none)
    (freq b : Int) : valsInBucket s freq b = [] := by
  unfold valsInBucket
  rw [List.filterMap_eq_nil_iff]
  intro p hp
  exact h p (List.mem_of_mem_filter hp)

theorem aggBucket_nil (agg : String) : aggBucket agg [] = none := by
  unfold aggBucket
  simp

theorem actualsResampled_allNone {araw : RawSeries} {freq : Int} {agg : String}
    (h : ∀ p ∈ maskSeries araw, p.2 = none) :
    ∀ p ∈ actualsResampled araw freq agg, p.2 = none := by
  intro p hp
  unfold actualsResampled at hp
  rw [List.mem_map] at hp
  obtain ⟨b, _, rfl⟩ := hp
  simp [valsInBucket_allNone h, aggBucket_nil]

/-! ## Bucket values versus the raw series -/

theorem filter_map_mask (l : RawSeries) (freq b : Int) :
    ((l.map (fun p => (p.1, toMissing p.2))).filter
        (fun p => decide (bucketOf freq p.1 = b))).filterMap Prod.snd
      = validRawInBucket l freq b := by
  induction l with
  | nil => rfl
  | cons q rest ih =>
      unfold validRawInBucket at ih ⊢
      rw [List.map_cons, List.filter_cons, List.filter_cons]
      by_cases hb : bucketOf freq q.1 = b
      · by_cases hz : q.2 = 0
        · rw [if_pos (by simpa using hb), if_neg (by simp [hb, hz]),
            List.filterMap_cons]
          have hm : toMissing q.2 = none := by simp [toMissing, hz]
          simp only [hm]
          exact ih
        · rw [if_pos (by simpa using hb), if_pos (by simp [hb, hz]),
            List.filterMap_cons, List.map_cons]
          have hm : toMissing q.2 = some q.2 := by simp [toMissing, hz]
          simp only [hm]
          rw [ih]
      · rw [if_neg (by simpa using hb), if_neg (by simp [hb])]
        exact ih

theorem valsInBucket_mask_perm (araw : RawSeries) (freq b : Int) :
    (valsInBucket (maskSeries araw) freq b).Perm
      (validRawInBucket araw freq b) := by
  unfold valsInBucket
  have h1 : ((maskSeries araw).filter
        (fun p => decide (bucketOf freq p.1 = b))).Perm
      ((araw.map (fun p => (p.1, toMissing p.2))).filter
        (fun p => decide (bucketOf freq p.1 = b))) :=
    (maskSeries_perm araw).filter _
  have h2 := h1.filterMap Prod.snd
  rwa [filter_map_mask] at h2

/-! ## Sublist machinery for the final sort -/

theorem map_filterMap_sublist {α β γ : Type} (g : α → Option β) (h : β → γ)
    (h' : α → γ) (H : ∀ a b, g a = some b → h b = h' a) (l : List α) :
    ((l.filterMap g).map h).Sublist (l.map h') := by
  induction l with
  | nil => simp
  | cons x xs ih =>
      rw [List.filterMap_cons]
      cases hg : g x with
      | none => rw [List.map_cons]; exact ih.cons _
      | some b =>
          rw [List.map_cons, List.map_cons, H x b hg]
          exact ih.cons₂ _

theorem map_fst_zip_sublist {α β : Type} (l : List α) (l' : List β) :
    ((l.zip l').map Prod.fst).Sublist l := by
  induction l generalizing l' with
  | nil => simp
  | cons x xs ih =>
      cases l' with
      | nil => simp
      | cons y ys =>
          rw [List.zip_cons_cons, List.map_cons]
          exact (ih ys).cons₂ x

theorem times_dropnaRows_sublist (l : List (Int × Option ℚ × Option ℚ)) :
    ((dropnaRows l).map Row.time).Sublist (l.map Prod.fst) := by
  unfold dropnaRows
  apply map_filterMap_sublist
  rintro ⟨t, fv, av⟩ r h
  cases fv with
  | none => simp at h
  | some f =>
      cases av with
      | none => simp at h
      | some a => rw [← Option.some.inj h]

theorem times_filterNonzero_sublist (l : List Row) :
    ((filterNonzero l).map Row.time).Sublist (l.map Row.time) :=
  (List.filter_sublist l).map Row.time

theorem times_innerJoin_sublist (f a : MSeries) :
    ((innerJoin f a).map Prod.fst).Sublist (f.map Prod.fst) := by
  unfold innerJoin
  apply map_filterMap_sublist
  intro fp p h
  rw [Option.map_eq_some'] at h
  obtain ⟨ap, _, rfl⟩ := h
  rfl

theorem times_fillMerged_sublist (grid : List Int) (fres ares : MSeries) :
    ((fillMerged grid fres ares).map Prod.fst).Sublist grid := by
  unfold fillMerged
  rw [List.map_map]
  have hfun : (Prod.fst ∘ fun p : Int × ((Int × Option ℚ) × (Int × Option ℚ)) =>
      (p.1, p.2.1.2, p.2.2.2)) = Prod.fst := rfl
  rw [hfun]
  exact map_fst_zip_sublist _ _

theorem pairwise_rows_of_times_sublist {l : List Row} {grid : List Int}
    (hsub : (l.map Row.time).Sublist grid)
    (hgrid : List.Pairwise (· < ·) grid) :
    List.Pairwise (fun r r' : Row => r.time < r'.time) l := by
  have h := List.Pairwise.sublist hsub hgrid
  rwa [List.pairwise_map] at h

theorem sortRows_of_pairwise {l : List Row}
    (h : List.Pairwise (fun r r' : Row => r.time < r'.time) l) :
    sortRows l = l := by
  apply List.Sorted.insertionSort_eq
  exact h.imp (fun hab => le_of_lt hab)

/-- The times of the upsampled forecast are exactly the grid. -/
theorem map_fst_forecastResampled (fraw : RawSeries) (freq : Int) :
    (forecastResampled fraw freq).map Prod.fst = fullIndex fraw freq := by
  unfold forecastResampled forecastReindexed
  rw [map_fst_bfill, map_fst_ffill, map_fst_interpolateTime, map_fst_reindexOn]

/-! ## Shape of the merge result -/

theorem merge_ok_inv {fraw araw : RawSeries} {freq : Int} {agg : String}
    {fm : Bool} {meth : String} {rows : List Row}
    (h : mergeForecastAndActuals fraw araw freq agg fm meth = .ok rows) :
    (fm = false ∧ rows = sortRows (filterNonzero (dropnaRows
        (innerJoin (forecastResampled fraw freq)
          (actualsResampled araw freq agg))))) ∨
    (fm = true ∧ rows = sortRows (filterNonzero (dropnaRows
        (fillMerged (fullIndex fraw freq) (forecastResampled fraw freq)
          (actualsFilled araw fraw freq agg meth))))) := by
  unfold mergeForecastAndActuals at h
  by_cases h1 : fraw = []
  · rw [if_pos h1] at h
    exact absurd h (by simp)
  · rw [if_neg h1] at h
    by_cases h2 : ¬ (fraw.map Prod.fst).Nodup
    · rw [if_pos h2] at h
      exact absurd h (by simp)
    · rw [if_neg h2] at h
      by_cases h3 : agg = "mean" ∨ agg = "first" ∨ agg = "last"
      · rw [if_pos h3] at h
        cases fm with
        | false =>
            rw [if_neg Bool.false_ne_true] at h
            exact Or.inl ⟨rfl, (Except.ok.inj h).symm⟩
        | true =>
            rw [if_pos rfl] at h
            by_cases h4 : meth = "time" ∨ meth = "ffill"
            · rw [if_pos h4] at h
              refine Or.inr ⟨rfl, ?_⟩
              rw [← Except.ok.inj h]
              rfl
            · rw [if_neg h4] at h
              exact absurd h (by simp)
      · rw [if_neg h3] at h
        exact absurd h (by simp)

theorem merge_ok_inter {fraw araw : RawSeries} {freq : Int} {agg meth : String}
    (hne : fraw ≠ []) (hnd : (fraw.map Prod.fst).Nodup)
    (hagg : agg = "mean" ∨ agg = "first" ∨ agg = "last") :
    mergeForecastAndActuals fraw araw freq agg false meth =
      .ok (sortRows (filterNonzero (dropnaRows
        (innerJoin (forecastResampled fraw freq)
          (actualsResampled araw freq agg))))) := by
  unfold mergeForecastAndActuals
  rw [if_neg hne, if_neg (not_not_intro hnd), if_pos hagg,
    if_neg Bool.false_ne_true]

theorem merge_ok_fill {fraw araw : RawSeries} {freq : Int} {agg meth : String}
    (hne : fraw ≠ []) (hnd : (fraw.map Prod.fst).Nodup)
    (hagg : agg = "mean" ∨ agg = "first" ∨ agg = "last")
    (hmeth : meth = "time" ∨ meth = "ffill") :
    mergeForecastAndActuals fraw araw freq agg true meth =
      .ok (sortRows (filterNonzero (dropnaRows
        (fillMerged (fullIndex fraw freq) (forecastResampled fraw freq)
          (actualsFilled araw fraw freq agg meth))))) := by
  unfold mergeForecastAndActuals
  rw [if_neg hne, if_neg (not_not_intro hnd), if_pos hagg, if_pos rfl,
    if_pos hmeth]
  rfl

/-! ## The claims -/

/-- **C1 counterexample.** The forecast series [(minute 0, value 0),
(minute 7, value 5)] has a non-missing value after zero-masking (5 at minute
7), yet with a 15-minute target frequency minute 7 lies off the grid,
`reindex` drops it, and every point of the upsampled forecast is missing —
refuting the claim that one non-missing input point suffices. -/
theorem forecast_completeness_cex :
    (∃ p ∈ maskSeries [((0 : Int), (0 : ℚ)), (7, 5)], p.2 ≠ none) ∧
    ∃ p ∈ forecastResampled [((0 : Int), (0 : ℚ)), (7, 5)] 15, p.2 = none := by
  decide

/-- **C1 (amended).** If at least one non-missing value survives at a
timestamp that lies on the computed grid — equivalently, the reindexed
forecast series has a known entry — then the upsampling stage
(reindex, time interpolation, ffill, bfill) produces a non-missing value at
every point of the grid. -/
theorem forecast_upsampling_complete (fraw : RawSeries) (freq : Int)
    (h : ∃ p ∈ forecastReindexed fraw freq, p.2 ≠ none) :
    (forecastResampled fraw freq).map Prod.fst = fullIndex fraw freq ∧
    ∀ p ∈ forecastResampled fraw freq, p.2 ≠ none := by
  refine ⟨map_fst_forecastResampled fraw freq, ?_⟩
  obtain ⟨p, hp, hv⟩ := h
  rw [List.mem_iff_getElem?] at hp
  obtain ⟨j, hj⟩ := hp
  obtain ⟨t, v⟩ := p
  cases v with
  | none => exact absurd rfl hv
  | some w => exact upsample_complete hj

theorem forecast_upsampling_complete_witness :
    (∃ p ∈ forecastReindexed [((0 : Int), (10 : ℚ)), (60, 20)] 15,
        p.2 ≠ none) ∧
    ((forecastResampled [((0 : Int), (10 : ℚ)), (60, 20)] 15).map Prod.fst
        = fullIndex [((0 : Int), (10 : ℚ)), (60, 20)] 15 ∧
      ∀ p ∈ forecastResampled [((0 : Int), (10 : ℚ)), (60, 20)] 15,
        p.2 ≠ none) :=
  ⟨by decide, forecast_upsampling_complete _ _ (by decide)⟩

/-- **C2.** Zero-masking and the final filter: the masked series never hold
the value 0 (every raw 0 became missing before resampling), and every row of
a successful merge has non-missing, nonzero forecast and actual values. -/
theorem merge_zero_masking_and_filter {fraw araw : RawSeries} {freq : Int}
    {agg : String} {fm : Bool} {meth : String} {rows : List Row}
    (h : mergeForecastAndActuals fraw araw freq agg fm meth = .ok rows) :
    (∀ p ∈ maskSeries fraw, p.2 ≠ some 0) ∧
    (∀ p ∈ maskSeries araw, p.2 ≠ some 0) ∧
    (∀ r ∈ rows, r.forecast_value ≠ 0 ∧ r.actual_value ≠ 0) := by
  refine ⟨fun p hp => mem_maskSeries_ne_zero hp,
    fun p hp => mem_maskSeries_ne_zero hp, ?_⟩
  intro r hr
  rcases merge_ok_inv h with ⟨_, rfl⟩ | ⟨_, rfl⟩ <;>
  · rw [mem_sortRows, mem_filterNonzero] at hr
    exact hr.2

theorem merge_zero_masking_and_filter_witness :
    (mergeForecastAndActuals [((0 : Int), (10 : ℚ)), (60, 20)]
        [((2 : Int), (7 : ℚ)), (20, 9)] 15 "mean" false "time"
      = .ok [⟨0, 10, 7⟩, ⟨15, 25/2, 9⟩]) ∧
    ((∀ p ∈ maskSeries [((0 : Int), (10 : ℚ)), (60, 20)], p.2 ≠ some 0) ∧
     (∀ p ∈ maskSeries [((2 : Int), (7 : ℚ)), (20, 9)], p.2 ≠ some 0) ∧
     (∀ r ∈ [Row.mk 0 10 7, Row.mk 15 (25/2) 9],
        r.forecast_value ≠ 0 ∧ r.actual_value ≠ 0)) :=
  ⟨by with_unfolding_all decide,
    @merge_zero_masking_and_filter [((0 : Int), (10 : ℚ)), (60, 20)]
      [((2 : Int), (7 : ℚ)), (20, 9)] 15 "mean" false "time"
      [⟨0, 10, 7⟩, ⟨15, 25/2, 9⟩] (by with_unfolding_all decide)⟩

/-- **C4.** The forecast series [(00:00, 10), (01:00, 20)] upsampled to a
15-minute grid takes the values 10, 12.5, 15, 17.5, 20 at
00:00, 00:15, 00:30, 00:45, 01:00: interpolation is linear with blend weight
proportional to elapsed time. -/
theorem forecast_interpolation_example :
    (forecastResampled [((0 : Int), (10 : ℚ)), (60, 20)] 15).take 5
      = [(0, some 10), (15, some (25/2)), (30, some 15),
         (45, some (35/2)), (60, some 20)] := by
  with_unfolding_all decide

/-- **C6 counterexample.** An actuals series whose only value is the zero
sentinel (zero valid points after masking) does not make the merge fail:
the merge succeeds and returns zero rows. No `EmptySeriesError` exists in
the pipeline. -/
theorem empty_series_no_error_cex :
    mergeForecastAndActuals [((0 : Int), (10 : ℚ)), (60, 20)]
      [((0 : Int), (0 : ℚ))] 15 "mean" false "time" = .ok [] := by
  with_unfolding_all decide

/-- **C6 (amended).** A series with zero valid points after sentinel-masking
does not raise: whenever the merge returns a result, every row has been
dropped by the final missing/zero filter, so the result has zero rows. -/
theorem empty_valid_series_yields_no_rows {fraw araw : RawSeries} {freq : Int}
    {agg : String} {fm : Bool} {meth : String} {rows : List Row}
    (hz : (∀ p ∈ fraw, p.2 = 0) ∨ (∀ p ∈ araw, p.2 = 0))
    (h : mergeForecastAndActuals fraw araw freq agg fm meth = .ok rows) :
    rows = [] := by
  rcases merge_ok_inv h with ⟨_, rfl⟩ | ⟨_, rfl⟩
  · rcases hz with hf | ha
    · rw [dropnaRows_eq_nil_fst (innerJoin_fst_all
        (forecastResampled_allNone (maskSeries_allNone hf)))]
      rfl
    · rw [dropnaRows_eq_nil_snd (innerJoin_snd_all
        (actualsResampled_allNone (maskSeries_allNone ha)))]
      rfl
  · rcases hz with hf | ha
    · rw [dropnaRows_eq_nil_fst (fillMerged_fst_all
        (forecastResampled_allNone (maskSeries_allNone hf)))]
      rfl
    · have h1 : ∀ p ∈ actualsResampled araw freq agg, p.2 = none :=
        actualsResampled_allNone (maskSeries_allNone ha)
      have h2 : ∀ p ∈ reindexOn (fullIndex fraw freq)
          (actualsResampled araw freq agg), p.2 = none := by
        intro p hp
        unfold reindexOn at hp
        rw [List.mem_map] at hp
        obtain ⟨t, _, rfl⟩ := hp
        exact lookupVal_allNone h1 t
      have h3 : ∀ p ∈ actualsFilled araw fraw freq agg meth, p.2 = none := by
        unfold actualsFilled
        by_cases hm : meth = "time"
        · rw [if_pos hm]
          exact bfill_allNone (ffill_allNone (interpolateTime_allNone h2))
        · rw [if_neg hm]
          exact bfill_allNone (ffill_allNone h2)
      rw [dropnaRows_eq_nil_snd (fillMerged_snd_all h3)]
      rfl

theorem empty_valid_series_yields_no_rows_witness :
    (∀ p ∈ ([((0 : Int), (0 : ℚ))] : RawSeries), p.2 = 0) ∧
    (mergeForecastAndActuals [((0 : Int), (10 : ℚ)), (60, 20)]
        [((0 : Int), (0 : ℚ))] 15 "mean" false "ffill" = .ok []) ∧
    ([] : List Row) = [] :=
  ⟨by decide, by with_unfolding_all decide,
    @empty_valid_series_yields_no_rows [((0 : Int), (10 : ℚ)), (60, 20)]
      [((0 : Int), (0 : ℚ))] 15 "mean" false "ffill" []
      (Or.inr (by decide)) (by with_unfolding_all decide)⟩

/-- **C8 counterexample.** With `fill_missing=False`, a `fill_actual_method`
outside {time, ffill} ("bogus") does not make the merge fail: the validation
sits inside the `fill_missing` branch, so the merge succeeds — refuting
"regardless of fill_missing". -/
theorem fill_method_not_validated_cex :
    mergeForecastAndActuals [((0 : Int), (10 : ℚ)), (60, 20)]
      [((2 : Int), (7 : ℚ))] 15 "mean" false "bogus" = .ok [⟨0, 10, 7⟩] := by
  with_unfolding_all decide

/-- **C8 (amended).** Only when `fill_missing` is true does a
`fill_actual_method` outside {time, ffill} make the merge fail, with the
invalid-fill-method error and no output (with `fill_missing=False` the
argument is ignored — see the counterexample and C10). -/
theorem invalid_fill_method_error (fraw araw : RawSeries) (freq : Int)
    (agg meth : String) (hne : fraw ≠ []) (hnd : (fraw.map Prod.fst).Nodup)
    (hagg : agg = "mean" ∨ agg = "first" ∨ agg = "last")
    (hmeth : ¬ (meth = "time" ∨ meth = "ffill")) :
    mergeForecastAndActuals fraw araw freq agg true meth
      = .error .invalidFillMethod := by
  unfold mergeForecastAndActuals
  rw [if_neg hne, if_neg (not_not_intro hnd), if_pos hagg, if_pos rfl,
    if_neg hmeth]

theorem invalid_fill_method_error_witness :
    ¬ (("bogus" : String) = "time" ∨ ("bogus" : String) = "ffill") ∧
    mergeForecastAndActuals [((0 : Int), (10 : ℚ)), (60, 20)]
      [((2 : Int), (7 : ℚ))] 15 "mean" true "bogus"
      = .error .invalidFillMethod :=
  ⟨by decide, invalid_fill_method_error _ _ _ _ _ (by decide) (by decide)
    (Or.inl rfl) (by decide)⟩

/-- **C10.** When `fill_missing` is false the `fill_actual_method` argument
is never inspected: any two values (valid or not) produce identical results
on the same inputs and configuration. -/
theorem fill_method_ignored_without_fill (fraw araw : RawSeries) (freq : Int)
    (agg : String) (m1 m2 : String) :
    mergeForecastAndActuals fraw araw freq agg false m1
      = mergeForecastAndActuals fraw araw freq agg false m2 := rfl

theorem reindexOn_getElem? {grid : List Int} {s : MSeries} {i : ℕ} {t : Int}
    (hg : grid[i]? = some t) :
    (reindexOn grid s)[i]? = some (t, lookupVal s t) := by
  unfold reindexOn
  rw [List.getElem?_map, hg]
  rfl

theorem actualsFilled_known {araw fraw : RawSeries} {freq : Int}
    {agg meth : String} {i : ℕ} {t : Int} {w : ℚ}
    (h : (reindexOn (fullIndex fraw freq)
        (actualsResampled araw freq agg))[i]? = some (t, some w)) :
    (actualsFilled araw fraw freq agg meth)[i]? = some (t, some w) := by
  unfold actualsFilled
  by_cases hm : meth = "time"
  · rw [if_pos hm]
    exact bfill_known (ffill_known (interpolateTime_known h))
  · rw [if_neg hm]
    exact bfill_known (ffill_known h)

theorem fillMerged_getElem? {grid : List Int} {fres ares : MSeries} {i : ℕ}
    {t : Int} {fp ap : Int × Option ℚ}
    (hg : grid[i]? = some t) (hf : fres[i]? = some fp)
    (ha : ares[i]? = some ap) :
    (fillMerged grid fres ares)[i]? = some (t, fp.2, ap.2) := by
  unfold fillMerged
  rw [List.getElem?_map]
  have hz : (fres.zip ares)[i]? = some (fp, ap) := by
    show (List.zipWith Prod.mk fres ares)[i]? = some (fp, ap)
    rw [List.getElem?_zipWith, hf, ha]
  have hz2 : (grid.zip (fres.zip ares))[i]? = some (t, fp, ap) := by
    show (List.zipWith Prod.mk grid (fres.zip ares))[i]? = some (t, fp, ap)
    rw [List.getElem?_zipWith, hg, hz]
  rw [hz2]
  rfl

/-- **C3 counterexample.** For forecast timestamps {0, 60} (minutes) and
target frequency 25, the claimed end point is 60 + 60 − 25 = 95, but the
grid is [0, 25, 50, 75]: `date_range` stops at the last grid-aligned point
not exceeding 95, which equals the claimed end only when the frequency
divides the extended span. -/
theorem grid_end_cex :
    fullIndex [((0 : Int), (10 : ℚ)), (60, 20)] 25 = [0, 25, 50, 75] ∧
    (fullIndex [((0 : Int), (10 : ℚ)), (60, 20)] 25).getLast? = some 75 ∧
    (75 : Int) ≠ 60 + 60 - 25 := by
  decide

/-- **C3 (amended).** For a positive target frequency and a nonempty
forecast series with minimum `mn` and maximum `mx`: the grid contains
exactly the timestamps `mn + k·freq` not exceeding `mx + 60 − freq`;
consecutive grid points differ by exactly `freq`; the grid starts at `mn`
whenever `mn ≤ mx + 60 − freq`; and it ends exactly at `mx + 60 − freq`
when `freq` divides `mx + 60 − mn` (otherwise at the largest grid point
below it). -/
theorem fullIndex_spec (s : RawSeries) (freq mn mx : Int) (hf : 0 < freq)
    (hmn : seriesMin s = some mn) (hmx : seriesMax s = some mx)
    (hle : mn ≤ mx) :
    (∀ t, t ∈ fullIndex s freq ↔
      (∃ k : ℕ, t = mn + freq * k) ∧ t ≤ mx + 60 - freq) ∧
    List.Chain' (fun a b => b = a + freq) (fullIndex s freq) ∧
    (mn ≤ mx + 60 - freq → (fullIndex s freq).head? = some mn) ∧
    (freq ∣ mx + 60 - mn →
      (fullIndex s freq).getLast? = some (mx + 60 - freq)) := by
  have hfi : fullIndex s freq = dateRange mn (mx + 60 - freq) freq := by
    unfold fullIndex
    rw [hmn, hmx]
  refine ⟨fun t => by rw [hfi]; exact mem_dateRange hf, ?_, ?_, ?_⟩
  · rw [hfi]
    exact chain'_dateRange _ _ _
  · intro h
    rw [hfi]
    exact head?_dateRange hf h
  · intro hdvd
    rw [hfi]
    have h1 : (0 : Int) < mx + 60 - mn := by omega
    have h2 : freq ≤ mx + 60 - mn := Int.le_of_dvd h1 hdvd
    apply getLast?_dateRange hf (by omega)
    have he : mx + 60 - freq - mn = (mx + 60 - mn) - freq := by ring
    rw [he]
    exact dvd_sub hdvd dvd_rfl

theorem fullIndex_spec_witness :
    seriesMin [((0 : Int), (10 : ℚ)), (60, 20)] = some 0 ∧
    seriesMax [((0 : Int), (10 : ℚ)), (60, 20)] = some 60 ∧
    ((15 : Int) ∣ 60 + 60 - 0 →
      (fullIndex [((0 : Int), (10 : ℚ)), (60, 20)] 15).getLast?
        = some (60 + 60 - 15)) :=
  ⟨by decide, by decide,
    (fullIndex_spec [((0 : Int), (10 : ℚ)), (60, 20)] 15 0 60 (by decide)
      (by decide) (by decide) (by decide)).2.2.2⟩

/-- **C5.** With aggregation mode "mean", every bucket of the resampled
actuals holds the arithmetic mean of the bucket's valid (non-missing,
post-zero-masking) raw values; a bucket whose values are all sentinels
yields missing; and the 15-minute bucket of the example series
[(00:00, 0.0), (00:05, 8.0), (00:10, 0.0)] yields 8.0. -/
theorem actuals_mean_bucket {araw : RawSeries} {freq : Int}
    {p : Int × Option ℚ} (hp : p ∈ actualsResampled araw freq "mean") :
    (validRawInBucket araw freq p.1 = [] → p.2 = none) ∧
    (validRawInBucket araw freq p.1 ≠ [] →
      p.2 = some ((validRawInBucket araw freq p.1).sum
        / ((validRawInBucket araw freq p.1).length : ℚ))) ∧
    actualsResampled [((0 : Int), (0 : ℚ)), (5, 8), (10, 0)] 15 "mean"
      = [(0, some 8)] := by
  unfold actualsResampled at hp
  rw [List.mem_map] at hp
  obtain ⟨b, hb, rfl⟩ := hp
  have hperm := valsInBucket_mask_perm araw freq b
  refine ⟨?_, ?_, by with_unfolding_all decide⟩
  · intro hnil
    have hvals : valsInBucket (maskSeries araw) freq b = [] := by
      rw [hnil] at hperm
      exact hperm.eq_nil
    show aggBucket "mean" (valsInBucket (maskSeries araw) freq b) = none
    rw [hvals]
    exact aggBucket_nil _
  · intro hne
    have hvne : valsInBucket (maskSeries araw) freq b ≠ [] := fun hcon =>
      hne (hcon ▸ hperm).symm.eq_nil
    show aggBucket "mean" (valsInBucket (maskSeries araw) freq b) = _
    unfold aggBucket
    rw [if_neg hvne, if_pos rfl, hperm.sum_eq, hperm.length_eq]

theorem actuals_mean_bucket_witness :
    ((0 : Int), some (8 : ℚ))
      ∈ actualsResampled [((0 : Int), (0 : ℚ)), (5, 8), (10, 0)] 15 "mean" ∧
    (validRawInBucket [((0 : Int), (0 : ℚ)), (5, 8), (10, 0)] 15 0 ≠ [] →
      (((0 : Int), some (8 : ℚ)) : Int × Option ℚ).2
        = some ((validRawInBucket [((0 : Int), (0 : ℚ)), (5, 8), (10, 0)]
              15 0).sum
          / ((validRawInBucket [((0 : Int), (0 : ℚ)), (5, 8), (10, 0)]
              15 0).length : ℚ))) :=
  ⟨by with_unfolding_all decide,
    (@actuals_mean_bucket [((0 : Int), (0 : ℚ)), (5, 8), (10, 0)] 15
      ((0 : Int), some (8 : ℚ)) (by with_unfolding_all decide)).2.1⟩

/-- **C9.** Whenever the merge returns a result (either mode), its rows are
sorted by timestamp ascending and strictly increasing — no duplicate
timestamps; the result is computed by a pure function of the inputs, hence
deterministic. -/
theorem merge_result_sorted {fraw araw : RawSeries} {freq : Int}
    {agg : String} {fm : Bool} {meth : String} {rows : List Row}
    (h : mergeForecastAndActuals fraw araw freq agg fm meth = .ok rows) :
    List.Chain' (fun r r' : Row => r.time < r'.time) rows := by
  have hgrid := pairwise_lt_fullIndex fraw freq
  rcases merge_ok_inv h with ⟨_, rfl⟩ | ⟨_, rfl⟩
  · have hsub : ((filterNonzero (dropnaRows (innerJoin
        (forecastResampled fraw freq)
        (actualsResampled araw freq agg)))).map Row.time).Sublist
          (fullIndex fraw freq) := by
      refine (times_filterNonzero_sublist _).trans
        ((times_dropnaRows_sublist _).trans ?_)
      rw [← map_fst_forecastResampled fraw freq]
      exact times_innerJoin_sublist _ _
    have hpw := pairwise_rows_of_times_sublist hsub hgrid
    rw [sortRows_of_pairwise hpw]
    exact hpw.chain'
  · have hsub : ((filterNonzero (dropnaRows (fillMerged (fullIndex fraw freq)
        (forecastResampled fraw freq)
        (actualsFilled araw fraw freq agg meth)))).map Row.time).Sublist
          (fullIndex fraw freq) :=
      (times_filterNonzero_sublist _).trans
        ((times_dropnaRows_sublist _).trans (times_fillMerged_sublist _ _ _))
    have hpw := pairwise_rows_of_times_sublist hsub hgrid
    rw [sortRows_of_pairwise hpw]
    exact hpw.chain'

theorem merge_result_sorted_witness :
    (mergeForecastAndActuals [((0 : Int), (10 : ℚ)), (60, 20)]
        [((2 : Int), (7 : ℚ)), (20, 9)] 15 "mean" false "ffill"
      = .ok [⟨0, 10, 7⟩, ⟨15, 25/2, 9⟩]) ∧
    List.Chain' (fun r r' : Row => r.time < r'.time)
      [Row.mk 0 10 7, Row.mk 15 (25/2) 9] :=
  ⟨by with_unfolding_all decide,
    @merge_result_sorted [((0 : Int), (10 : ℚ)), (60, 20)]
      [((2 : Int), (7 : ℚ)), (20, 9)] 15 "mean" false "ffill"
      [⟨0, 10, 7⟩, ⟨15, 25/2, 9⟩] (by with_unfolding_all decide)⟩

/-- **C7.** Mode equivalence at the boundary: for the same inputs and
configuration, every row of the intersection-mode result
(`fill_missing=False`) also appears — same timestamp, forecast value and
actual value — in the full-grid-fill-mode result (`fill_missing=True`), and
at that timestamp the aggregated actuals value was already non-missing,
i.e. the row lies where no fill was needed. -/
theorem intersection_subset_fill {fraw araw : RawSeries} {freq : Int}
    {agg meth : String} {rowsA rowsB : List Row}
    (hA : mergeForecastAndActuals fraw araw freq agg false meth = .ok rowsA)
    (hB : mergeForecastAndActuals fraw araw freq agg true meth = .ok rowsB) :
    ∀ r ∈ rowsA, r ∈ rowsB ∧
      ∃ ap ∈ actualsResampled araw freq agg,
        ap.1 = r.time ∧ ap.2 = some r.actual_value := by
  rcases merge_ok_inv hA with ⟨_, hrA⟩ | ⟨hconA, _⟩
  swap
  · simp at hconA
  rcases merge_ok_inv hB with ⟨hconB, _⟩ | ⟨_, hrB⟩
  · simp at hconB
  subst hrA
  subst hrB
  intro r hr
  rw [mem_sortRows, mem_filterNonzero] at hr
  obtain ⟨hmemA, hf0, ha0⟩ := hr
  rw [mem_dropnaRows, mem_innerJoin] at hmemA
  obtain ⟨fp, hfp, ap, hfind, heq⟩ := hmemA
  rw [Prod.mk.injEq, Prod.mk.injEq] at heq
  obtain ⟨ht, hfv, hav⟩ := heq
  have hap_mem : ap ∈ actualsResampled araw freq agg :=
    List.mem_of_find?_eq_some hfind
  have hap1 : ap.1 = fp.1 := by
    have h1 := List.find?_some hfind
    simpa using h1
  refine ⟨?_, ap, hap_mem, hap1.trans ht.symm, hav.symm⟩
  rw [mem_sortRows, mem_filterNonzero]
  refine ⟨?_, hf0, ha0⟩
  rw [mem_dropnaRows]
  obtain ⟨i, hi⟩ := List.mem_iff_getElem?.mp hfp
  have hgrid_i : (fullIndex fraw freq)[i]? = some fp.1 := by
    rw [← map_fst_forecastResampled fraw freq, List.getElem?_map, hi]
    rfl
  have hre : (reindexOn (fullIndex fraw freq)
      (actualsResampled araw freq agg))[i]?
      = some (fp.1, lookupVal (actualsResampled araw freq agg) fp.1) :=
    reindexOn_getElem? hgrid_i
  have hlook : lookupVal (actualsResampled araw freq agg) fp.1 = ap.2 :=
    lookupVal_of_find? hfind
  rw [hlook, ← hav] at hre
  have hfill : (actualsFilled araw fraw freq agg meth)[i]?
      = some (fp.1, some r.actual_value) := actualsFilled_known hre
  have hfm : (fillMerged (fullIndex fraw freq) (forecastResampled fraw freq)
      (actualsFilled araw fraw freq agg meth))[i]?
      = some (fp.1, fp.2, some r.actual_value) := by
    have h2 := fillMerged_getElem? hgrid_i hi hfill
    simpa using h2
  rw [List.mem_iff_getElem?]
  exact ⟨i, by rw [hfm, ht, hfv]⟩

theorem intersection_subset_fill_witness :
    (mergeForecastAndActuals [((0 : Int), (10 : ℚ)), (60, 20)]
        [((2 : Int), (7 : ℚ)), (20, 9)] 15 "mean" false "time"
      = .ok [⟨0, 10, 7⟩, ⟨15, 25/2, 9⟩]) ∧
    (mergeForecastAndActuals [((0 : Int), (10 : ℚ)), (60, 20)]
        [((2 : Int), (7 : ℚ)), (20, 9)] 15 "mean" true "time"
      = .ok [⟨0, 10, 7⟩, ⟨15, 25/2, 9⟩, ⟨30, 15, 9⟩, ⟨45, 35/2, 9⟩,
             ⟨60, 20, 9⟩, ⟨75, 20, 9⟩, ⟨90, 20, 9⟩, ⟨105, 20, 9⟩]) ∧
    ∀ r ∈ [Row.mk 0 10 7, Row.mk 15 (25/2) 9],
      r ∈ [Row.mk 0 10 7, Row.mk 15 (25/2) 9, Row.mk 30 15 9,
           Row.mk 45 (35/2) 9, Row.mk 60 20 9, Row.mk 75 20 9,
           Row.mk 90 20 9, Row.mk 105 20 9] ∧
      ∃ ap ∈ actualsResampled [((2 : Int), (7 : ℚ)), (20, 9)] 15 "mean",
        ap.1 = r.time ∧ ap.2 = some r.actual_value :=
  ⟨by with_unfolding_all decide, by with_unfolding_all decide,
    @intersection_subset_fill [((0 : Int), (10 : ℚ)), (60, 20)]
      [((2 : Int), (7 : ℚ)), (20, 9)] 15 "mean" "time"
      [⟨0, 10, 7⟩, ⟨15, 25/2, 9⟩]
      [⟨0, 10, 7⟩, ⟨15, 25/2, 9⟩, ⟨30, 15, 9⟩, ⟨45, 35/2, 9⟩,
       ⟨60, 20, 9⟩, ⟨75, 20, 9⟩, ⟨90, 20, 9⟩, ⟨105, 20, 9⟩]
      (by with_unfolding_all decide) (by with_unfolding_all decide)⟩

end OptimalBESS
